import Mathlib

/-!
# Verification of the spotify-insights import and analytics layer

Shallow embedding of the core routines of the repository:

* `src/import_data.py` — the atomic dataset-replace import routine
  (`load_jsons`, `main`: staging, transactional insert, sidecar cleanup,
  `os.replace` publish).
* `src/build_report.py` — the analytics queries (`compute_hhi`,
  `repeat_metrics`, `skip_metrics`, `discovery`).
* `streamlit-spotify-insights/app.py` — the dashboard's date-range filter
  (`between_clause`) and its HHI threshold labelling.

SQLite REAL arithmetic is modelled over `ℚ`; SQL `NULL` propagation and
non-finite IEEE outcomes are modelled with `Option` (`none` = the query
layer produced a value that is not a finite number, which the Python
wrapper cannot turn into the documented default), while IEEE `NaN`
entries that pandas aggregation *skips* (`skipna=True`) are modelled by
dropping them from the aggregated value.  Timestamps are the ISO strings
of the export format,
so SQLite's `date(endTime)` is the 10-character date prefix and SQL string
comparison is Lean's `String` order.
-/

namespace SpotifyInsights

/-- A row of the `listens` table (`import_data.py` lines 40–45):
`endTime TEXT, artistName TEXT, trackName TEXT, msPlayed INTEGER`. -/
structure PlayEvent where
  endTime : String
  artistName : String
  trackName : String
  msPlayed : Int
deriving Repr, DecidableEq

/-- A raw JSON record as read by `load_jsons`.  Each of the four required
keys may be absent from the JSON object, hence `Option` fields. -/
structure RawRecord where
  endTime : Option String
  artistName : Option String
  trackName : Option String
  msPlayed : Option Int
deriving Repr, DecidableEq

/-- A raw record supplies all four required fields
(`r["endTime"], r["artistName"], r["trackName"], int(r["msPlayed"])`
succeed). -/
def RawRecord.wellFormed (r : RawRecord) : Prop :=
  r.endTime.isSome ∧ r.artistName.isSome ∧ r.trackName.isSome ∧ r.msPlayed.isSome

instance (r : RawRecord) : Decidable r.wellFormed := by
  unfold RawRecord.wellFormed; infer_instance

/-- Extraction of one tuple of the `executemany` parameter list
(`import_data.py` line 49).  A missing key raises `KeyError`, modelled as
`Except.error`. -/
def toRow (r : RawRecord) : Except String PlayEvent :=
  match r.endTime, r.artistName, r.trackName, r.msPlayed with
  | some e, some a, some t, some m => .ok ⟨e, a, t, m⟩
  | _, _, _, _ => .error "KeyError"

/-- The full parameter list
`[(r["endTime"], r["artistName"], r["trackName"], int(r["msPlayed"])) for r in rows]`.
The comprehension is evaluated in order and raises at the first record
missing a key, before `executemany` performs a single insert. -/
def buildParams : List RawRecord → Except String (List PlayEvent)
  | [] => .ok []
  | r :: rs =>
    match toRow r with
    | .error e => .error e
    | .ok row =>
      match buildParams rs with
      | .error e => .error e
      | .ok rest => .ok (row :: rest)

/-- Observable outcome of one run of `import_data.main`. -/
structure ImportOutcome where
  /-- content of the file at the published store location after the run
  (`db/spotify.db`); `none` would mean no store file exists. -/
  published : Option (List PlayEvent)
  /-- the staging directory `tmp_dir` no longer exists when the run ends. -/
  tmpRemoved : Bool
  /-- number of `INSERT` operations executed on the staging store before
  an exception was raised (meaningful on error runs). -/
  insertedBeforeError : Nat
  /-- `Except.ok n` = success printing `Loaded n rows`; `Except.error` =
  the run raised. -/
  result : Except String Nat
deriving Repr

/-- One run of `import_data.main` over an already-parsed row list.
`store0` is the published store before the run; `commitFails` injects a
storage-level failure of the staging transaction (insert/commit error).
Control flow of `main` (lines 28–71): empty-input check, staging build
inside `try`/`except` (rollback + `shutil.rmtree(tmp_dir)` + re-raise on
any exception), then sidecar unlink + `os.replace` publish + cleanup. -/
def runImport (store0 : Option (List PlayEvent)) (rows : List RawRecord)
    (commitFails : Bool) : ImportOutcome :=
  if rows.isEmpty then
    -- `raise SystemExit("No streaming history files found in data/")`,
    -- before the staging directory is even created.
    ⟨store0, true, 0, .error "No streaming history files found in data/"⟩
  else
    match buildParams rows with
    | .error e =>
      -- KeyError during parameter-list evaluation: `except` path runs
      -- ROLLBACK, closes, removes tmp_dir, re-raises.
      ⟨store0, true, 0, .error e⟩
    | .ok params =>
      if commitFails then
        -- failure inside the staging transaction: same `except` path.
        ⟨store0, true, params.length, .error "CommitError"⟩
      else
        -- publish: sidecar unlink loop + `os.replace(tmp_db, DB)` +
        -- `shutil.rmtree(tmp_dir)`; store now holds exactly `params`.
        ⟨some params, true, params.length, .ok rows.length⟩

/-! ## The publish phase at filesystem level (`import_data.py` lines 61–70)

After the staging transaction commits, `main` runs

```
for suffix in ["", "-wal", "-shm"]:
    p = pathlib.Path(str(DB) + suffix)
    try: p.unlink()
    except FileNotFoundError: pass
    except PermissionError: pass
os.replace(tmp_db, DB)
```

Each `unlink` and the `replace` is one atomic filesystem operation; the
states between them are the observable moments for a concurrent reader
opening the store path. -/

/-- Filesystem state during the publish phase: the file at the store
location `db/spotify.db`, its `-wal`/`-shm` sidecars, and the staged
database `tmp_db`.  A file either holds a complete dataset or is absent;
the only mutations below are whole-file unlink and rename, so no partial
content is constructible in this phase. -/
structure FS where
  store : Option (List PlayEvent)
  storeWal : Bool
  storeShm : Bool
  tmp : Option (List PlayEvent)
deriving Repr, DecidableEq

/-- `p.unlink()` for suffix `""`: removes the published store file. -/
def unlinkStore (fs : FS) : FS := { fs with store := none }

/-- `p.unlink()` for suffix `"-wal"`. -/
def unlinkWal (fs : FS) : FS := { fs with storeWal := false }

/-- `p.unlink()` for suffix `"-shm"`. -/
def unlinkShm (fs : FS) : FS := { fs with storeShm := false }

/-- `os.replace(tmp_db, DB)`: a single atomic rename of the staged file
onto the store location. -/
def osReplace (fs : FS) : FS := { fs with store := fs.tmp, tmp := none }

/-- The successive filesystem states observable during the publish phase,
starting from `fs` (staging committed, old store still published) and
applying lines 63–69 of `import_data.py` in program order. -/
def publishStates (fs : FS) : List FS :=
  [fs,
   unlinkStore fs,
   unlinkWal (unlinkStore fs),
   unlinkShm (unlinkWal (unlinkStore fs)),
   osReplace (unlinkShm (unlinkWal (unlinkStore fs)))]

/-! ## SQL text ordering and date extraction

SQLite compares TEXT values with `memcmp` over their UTF-8 bytes; on the
code-point lists this is lexicographic comparison, implemented here as an
executable Boolean so that concrete instances evaluate by `decide`. -/

/-- Lexicographic `≤` on code-point lists (SQLite TEXT collation BINARY). -/
def charListLe : List Char → List Char → Bool
  | [], _ => true
  | _ :: _, [] => false
  | a :: as, b :: bs =>
    if a.toNat < b.toNat then true
    else if b.toNat < a.toNat then false
    else charListLe as bs

/-- SQL `a <= b` on TEXT values. -/
def strLeB (a b : String) : Bool := charListLe a.data b.data

/-- The proposition form of `strLeB`, used as the ordering relation of
`ORDER BY` over date strings. -/
def dateLe (a b : String) : Prop := strLeB a b = true

instance : DecidableRel dateLe := fun a b => by unfold dateLe; infer_instance

/-- SQLite `date(endTime)` for the export's ISO-8601 timestamps
(`"YYYY-MM-DD HH:MM"`): the 10-character date prefix. -/
def dateOf (s : String) : String := ⟨s.data.take 10⟩

/-! ## Analytics over the `listens` table (`build_report.py`) -/

/-- `SELECT SUM(msPlayed) FROM listens` (over a given row list). -/
def totalMs (l : List PlayEvent) : Int := (l.map (·.msPlayed)).sum

/-- The distinct artists, in first-appearance order: the grouping keys of
`GROUP BY artistName`. -/
def artistsOf (l : List PlayEvent) : List String := (l.map (·.artistName)).dedup

/-- `SUM(msPlayed)` within artist `a`'s group. -/
def artistMs (l : List PlayEvent) (a : String) : Int :=
  ((l.filter (fun e => e.artistName == a)).map (·.msPlayed)).sum

/-- `compute_hhi` (`build_report.py` lines 65–72): per-artist ms sums,
shares `ms/total`, HHI = Σ share².  The empty store returns `0.0`
(`if df.empty`).  A non-empty store with `total = 0` divides by zero in
pandas: a `0/0` share is IEEE `NaN` and is *skipped* by `shares.sum()`
(`pandas.Series.sum` defaults to `skipna=True`, and the sum of an
all-NaN series is `0.0`), while a nonzero-ms group (impossible under the
`ms_played ≥ 0` invariant, but expressible) gives a `±inf` share whose
square makes the sum non-finite — `none` models that non-finite
outcome. -/
def computeHhi (l : List PlayEvent) : Option ℚ :=
  if l.isEmpty then some 0
  else if totalMs l = 0 then
    if (artistsOf l).all (fun a => artistMs l a == 0) then some 0 else none
  else some (((artistsOf l).map
    (fun a => ((artistMs l a : ℚ) / (totalMs l : ℚ)) ^ 2)).sum)

/-- The report generator's loyalty labelling (`build_report.py` line 71):
`"Explorer" if hhi < 0.07 else ("Balanced" if hhi < 0.12 else "Loyalist")`. -/
def reportLabel (hhi : ℚ) : String :=
  if hhi < 7/100 then "Explorer"
  else if hhi < 12/100 then "Balanced"
  else "Loyalist"

/-- The dashboard's loyalty labelling (`app.py` line 93):
`"Explorer" if score < 0.05 else ("Balanced" if score < 0.12 else "Loyalist")`. -/
def appLabel (score : ℚ) : String :=
  if score < 5/100 then "Explorer"
  else if score < 12/100 then "Balanced"
  else "Loyalist"

/-- SQLite `ROUND(x, 1)` for the non-negative values that occur here
(round half away from zero = `⌊10x + 1/2⌋ / 10` when `x ≥ 0`). -/
def round1 (x : ℚ) : ℚ := (⌊10 * x + 1/2⌋ : ℤ) / 10

/-- Round to the nearest integer, ties to the even integer (Python's
built-in `round`). -/
def roundHalfEven (x : ℚ) : ℤ :=
  if Int.fract x < 1/2 then ⌊x⌋
  else if 1/2 < Int.fract x then ⌊x⌋ + 1
  else if Even ⌊x⌋ then ⌊x⌋ else ⌊x⌋ + 1

/-- Python `round(x, 2)` (used on `avg` in `repeat_metrics`). -/
def round2 (x : ℚ) : ℚ := (roundHalfEven (100 * x) : ℚ) / 100

/-- `skip_metrics` (`build_report.py` lines 92–102): the percentage of
plays with `msPlayed < 30000` and `< 60000`, rounded to one decimal.
On an empty store `SUM(CASE …)` is SQL `NULL`, the `ROUND`ed percentages
stay `NULL`, and `float(None)` in the Python wrapper faults; `none`
models that outcome. -/
def skipMetrics (l : List PlayEvent) : Option (ℚ × ℚ) :=
  if l.isEmpty then none
  else
    some (round1 (100 * ((l.filter (fun e => e.msPlayed < 30000)).length : ℚ)
                    / (l.length : ℚ)),
          round1 (100 * ((l.filter (fun e => e.msPlayed < 60000)).length : ℚ)
                    / (l.length : ℚ)))

/-- `repeat_metrics` (`build_report.py` lines 86–90): total plays,
distinct track count, and `round(plays / uniq, 2)` guarded by
`if b else 0`. -/
def repeatMetrics (l : List PlayEvent) : Nat × Nat × ℚ :=
  let plays := l.length
  let uniq := ((l.map (·.trackName)).dedup).length
  (plays, uniq, if uniq = 0 then 0 else round2 ((plays : ℚ) / (uniq : ℚ)))

/-! ## Discovery curve (`build_report.py` lines 120–141) -/

/-- SQL `MIN` aggregate over a list of TEXT dates (`none` on the empty
group, which cannot occur for a grouping key). -/
def minDate : List String → Option String
  | [] => none
  | d :: ds =>
    match minDate ds with
    | none => some d
    | some m => some (if strLeB d m then d else m)

/-- `first_seen`: `MIN(date(endTime))` over artist `a`'s rows. -/
def firstDate (l : List PlayEvent) (a : String) : Option String :=
  minDate ((l.filter (fun e => e.artistName == a)).map (fun e => dateOf e.endTime))

/-- `calendar`: `SELECT DISTINCT date(endTime)` ordered by date
(`ORDER BY d` of the window clause / final `ORDER BY date`). -/
def calendar (l : List PlayEvent) : List String :=
  ((l.map (fun e => dateOf e.endTime)).dedup).insertionSort dateLe

/-- `daily.new_artists` at date `d`: the number of artists whose first
appearance date is `d`. -/
def newArtists (l : List PlayEvent) (d : String) : Nat :=
  ((artistsOf l).filter (fun a => firstDate l a == some d)).length

/-- `SUM(new_artists) OVER (ORDER BY d ROWS UNBOUNDED PRECEDING)`:
running totals over the per-date new-artist counts. -/
def cumSums (acc : Nat) : List (String × Nat) → List (String × Nat × Nat)
  | [] => []
  | (d, n) :: rest => (d, n, acc + n) :: cumSums (acc + n) rest

/-- `discovery`: one output row `(date, new_artists, cumulative_artists)`
per calendar date, in date order. -/
def discoveryCurve (l : List PlayEvent) : List (String × Nat × Nat) :=
  cumSums 0 ((calendar l).map (fun d => (d, newArtists l d)))

/-! ## The dashboard's date-range filter (`app.py` lines 58–72)

`between_clause` renders `date(endTime) BETWEEN ? AND ?` with the
sidebar's `(start_d, end_d)`; SQL `v BETWEEN x AND y` is
`x <= v AND v <= y`.  The sidebar default is `(min_d, max_d)`, the
dataset's full date range (lines 58–64).  No code path validates
`start_d <= end_d`. -/

/-- The `WHERE date(endTime) BETWEEN ? AND ?` predicate on one row. -/
def matchesRange (s e : String) (ev : PlayEvent) : Bool :=
  strLeB s (dateOf ev.endTime) && strLeB (dateOf ev.endTime) e

/-- A range-filtered query's row set: the rows of `listens` satisfying
`between_clause`. -/
def filterRange (s e : String) (l : List PlayEvent) : List PlayEvent :=
  l.filter (matchesRange s e)

/-- `date(min(endTime))` over the store (`min_d`, `app.py` line 59). -/
def minStoreDate (l : List PlayEvent) : Option String :=
  minDate (l.map (fun e => dateOf e.endTime))

/-- SQL `MAX` aggregate over a list of TEXT dates. -/
def maxDate : List String → Option String
  | [] => none
  | d :: ds =>
    match maxDate ds with
    | none => some d
    | some m => some (if strLeB d m then m else d)

/-- `date(max(endTime))` over the store (`max_d`, `app.py` line 59). -/
def maxStoreDate (l : List PlayEvent) : Option String :=
  maxDate (l.map (fun e => dateOf e.endTime))

/-! ## Order lemmas for the TEXT comparison -/

lemma charListLe_refl : ∀ as : List Char, charListLe as as = true := by
  intro as
  induction as with
  | nil => rfl
  | cons a as ih => simp [charListLe, ih]

lemma charListLe_trans : ∀ {as bs cs : List Char},
    charListLe as bs = true → charListLe bs cs = true → charListLe as cs = true := by
  intro as
  induction as with
  | nil => intro bs cs _ _; rfl
  | cons a as ih =>
    intro bs cs hab hbc
    cases bs with
    | nil => simp [charListLe] at hab
    | cons b bs =>
      cases cs with
      | nil => simp [charListLe] at hbc
      | cons c cs =>
        simp only [charListLe] at hab hbc ⊢
        split_ifs at hab hbc ⊢ with h1 h2 h3 h4 h5 h6 <;>
          first
            | rfl
            | omega
            | (exact ih hab hbc)

lemma charListLe_total : ∀ as bs : List Char,
    charListLe as bs = true ∨ charListLe bs as = true := by
  intro as
  induction as with
  | nil => intro bs; left; rfl
  | cons a as ih =>
    intro bs
    cases bs with
    | nil => right; rfl
    | cons b bs =>
      simp only [charListLe]
      rcases ih bs with h | h <;> split_ifs <;> simp_all

lemma strLeB_refl (a : String) : strLeB a a = true := charListLe_refl _

lemma strLeB_trans {a b c : String} (h1 : strLeB a b = true)
    (h2 : strLeB b c = true) : strLeB a c = true :=
  charListLe_trans h1 h2

lemma strLeB_total (a b : String) : strLeB a b = true ∨ strLeB b a = true :=
  charListLe_total _ _

/-! ## `MIN`/`MAX` aggregate lemmas -/

lemma minDate_eq_none : ∀ {xs : List String}, minDate xs = none → xs = [] := by
  intro xs h
  cases xs with
  | nil => rfl
  | cons d ds =>
    simp only [minDate] at h
    cases hds : minDate ds <;> rw [hds] at h <;> simp at h

lemma maxDate_eq_none : ∀ {xs : List String}, maxDate xs = none → xs = [] := by
  intro xs h
  cases xs with
  | nil => rfl
  | cons d ds =>
    simp only [maxDate] at h
    cases hds : maxDate ds <;> rw [hds] at h <;> simp at h

lemma minDate_mem : ∀ {xs : List String} {m : String},
    minDate xs = some m → m ∈ xs := by
  intro xs
  induction xs with
  | nil => intro m h; simp [minDate] at h
  | cons d ds ih =>
    intro m h
    simp only [minDate] at h
    cases hds : minDate ds with
    | none => rw [hds] at h; simp at h; simp [h]
    | some m' =>
      rw [hds] at h
      simp only [Option.some.injEq] at h
      by_cases hc : strLeB d m' = true
      · rw [if_pos hc] at h; simp [← h]
      · rw [if_neg hc] at h
        right
        exact h ▸ ih hds

lemma minDate_le : ∀ {xs : List String} {m : String},
    minDate xs = some m → ∀ x ∈ xs, strLeB m x = true := by
  intro xs
  induction xs with
  | nil => intro m _ x hx; simp at hx
  | cons d ds ih =>
    intro m h x hx
    simp only [minDate] at h
    cases hds : minDate ds with
    | none =>
      rw [hds] at h
      simp only [Option.some.injEq] at h
      have hnil := minDate_eq_none hds
      subst hnil
      simp at hx
      subst hx; subst h; exact strLeB_refl _
    | some m' =>
      rw [hds] at h
      simp only [Option.some.injEq] at h
      rcases List.mem_cons.mp hx with heq | hx'
      · rw [heq]
        by_cases hc : strLeB d m' = true
        · rw [if_pos hc] at h; subst h; exact strLeB_refl _
        · rw [if_neg hc] at h
          subst h
          rcases strLeB_total d m' with h' | h'
          · exact absurd h' hc
          · exact h'
      · have hm' := ih hds x hx'
        by_cases hc : strLeB d m' = true
        · rw [if_pos hc] at h; subst h; exact strLeB_trans hc hm'
        · rw [if_neg hc] at h; subst h; exact hm'

lemma maxDate_ge : ∀ {xs : List String} {m : String},
    maxDate xs = some m → ∀ x ∈ xs, strLeB x m = true := by
  intro xs
  induction xs with
  | nil => intro m _ x hx; simp at hx
  | cons d ds ih =>
    intro m h x hx
    simp only [maxDate] at h
    cases hds : maxDate ds with
    | none =>
      rw [hds] at h
      simp only [Option.some.injEq] at h
      have hnil := maxDate_eq_none hds
      subst hnil
      simp at hx
      subst hx; subst h; exact strLeB_refl _
    | some m' =>
      rw [hds] at h
      simp only [Option.some.injEq] at h
      rcases List.mem_cons.mp hx with heq | hx'
      · rw [heq]
        by_cases hc : strLeB d m' = true
        · rw [if_pos hc] at h; subst h; exact hc
        · rw [if_neg hc] at h
          subst h
          rcases strLeB_total d m' with h' | h'
          · exact absurd h' hc
          · exact strLeB_refl _
      · have hm' := ih hds x hx'
        by_cases hc : strLeB d m' = true
        · rw [if_pos hc] at h; subst h; exact hm'
        · rw [if_neg hc] at h
          subst h
          rcases strLeB_total d m' with h' | h'
          · exact absurd h' hc
          · exact strLeB_trans hm' h'

lemma minDate_isSome_of_ne_nil {xs : List String} (h : xs ≠ []) :
    ∃ m, minDate xs = some m := by
  cases xs with
  | nil => exact absurd rfl h
  | cons d ds =>
    simp only [minDate]
    cases minDate ds with
    | none => exact ⟨d, rfl⟩
    | some m' => exact ⟨if strLeB d m' then d else m', rfl⟩

/-! ## General list lemmas: `GROUP BY` partitions sums -/

lemma sum_map_add {α M : Type*} [AddCommMonoid M] (A : List α) (f g : α → M) :
    (A.map (fun a => f a + g a)).sum = (A.map f).sum + (A.map g).sum := by
  induction A with
  | nil => simp
  | cons a A ih => simp [ih]; abel

lemma sum_map_single {α M : Type*} [BEq α] [LawfulBEq α] [AddCommMonoid M]
    (A : List α) (hA : A.Nodup) (b : α) (hb : b ∈ A) (c : M) :
    (A.map (fun a => if b == a then c else 0)).sum = c := by
  induction A with
  | nil => simp at hb
  | cons a A ih =>
    rcases List.mem_cons.mp hb with heq | hmem
    · subst heq
      have hnot : b ∉ A := (List.nodup_cons.mp hA).1
      have hz : (A.map (fun a => if b == a then c else 0)).sum = 0 := by
        rw [List.sum_eq_zero]
        intro x hx
        rcases List.mem_map.mp hx with ⟨a', ha', rfl⟩
        have : ¬ (b == a') = true := by
          intro hcontra
          exact hnot (beq_iff_eq.mp hcontra ▸ ha')
        simp [this]
      simp [hz]
    · have hne : ¬ (b == a) = true := by
        intro hcontra
        have := beq_iff_eq.mp hcontra
        subst this
        exact (List.nodup_cons.mp hA).1 hmem
      rw [List.map_cons, List.sum_cons, if_neg hne, zero_add]
      exact ih (List.nodup_cons.mp hA).2 hmem

/-- `GROUP BY` partition: summing `g` group-by-group over all the grouping
keys recovers the sum of `g` over the whole table. -/
lemma sum_fiber {α β M : Type*} [BEq β] [LawfulBEq β] [AddCommMonoid M]
    (A : List β) (hA : A.Nodup) (l : List α) (f : α → β) (g : α → M)
    (hcov : ∀ x ∈ l, f x ∈ A) :
    (A.map (fun b => ((l.filter (fun x => f x == b)).map g).sum)).sum
      = (l.map g).sum := by
  induction l with
  | nil => simp
  | cons x xs ih =>
    have hx : f x ∈ A := hcov x (List.mem_cons_self _ _)
    have hxs : ∀ y ∈ xs, f y ∈ A := fun y hy => hcov y (List.mem_cons_of_mem _ hy)
    have hsplit : ∀ b : β,
        ((List.filter (fun y => f y == b) (x :: xs)).map g).sum
          = (if f x == b then g x else 0)
            + ((xs.filter (fun y => f y == b)).map g).sum := by
      intro b
      rw [List.filter_cons]
      by_cases hb : (f x == b) = true
      · simp [hb]
      · simp [hb]
    calc (A.map (fun b => ((List.filter (fun y => f y == b) (x :: xs)).map g).sum)).sum
        = (A.map (fun b => (if f x == b then g x else 0)
            + ((xs.filter (fun y => f y == b)).map g).sum)).sum := by
          congr 1
          exact List.map_congr_left (fun b _ => hsplit b)
      _ = (A.map (fun b => if f x == b then g x else 0)).sum
            + (A.map (fun b => ((xs.filter (fun y => f y == b)).map g).sum)).sum :=
          sum_map_add ..
      _ = g x + (xs.map g).sum := by rw [sum_map_single A hA _ hx, ih hxs]
      _ = ((x :: xs).map g).sum := by simp

lemma sum_map_ones {α : Type*} (l : List α) :
    (l.map (fun _ => (1 : ℕ))).sum = l.length := by
  induction l with
  | nil => rfl
  | cons a l ih => simp [ih]; omega

/-! ## Importer lemmas -/

/-- The value-preservation relation of one imported record: the stored
`listens` row carries exactly the values of the raw record's four
required fields. -/
def FieldsPreserved (r : RawRecord) (ev : PlayEvent) : Prop :=
  r.endTime = some ev.endTime ∧ r.artistName = some ev.artistName ∧
  r.trackName = some ev.trackName ∧ r.msPlayed = some ev.msPlayed

lemma buildParams_ok {rows : List RawRecord}
    (hwf : ∀ r ∈ rows, r.wellFormed) :
    ∃ evs, buildParams rows = .ok evs ∧ List.Forall₂ FieldsPreserved rows evs := by
  induction rows with
  | nil => exact ⟨[], rfl, List.Forall₂.nil⟩
  | cons r rs ih =>
    obtain ⟨he, ha, ht, hm⟩ := hwf r (List.mem_cons_self _ _)
    obtain ⟨e, he'⟩ := Option.isSome_iff_exists.mp he
    obtain ⟨a, ha'⟩ := Option.isSome_iff_exists.mp ha
    obtain ⟨t, ht'⟩ := Option.isSome_iff_exists.mp ht
    obtain ⟨m, hm'⟩ := Option.isSome_iff_exists.mp hm
    obtain ⟨evs, hevs, hpres⟩ := ih (fun r' hr' => hwf r' (List.mem_cons_of_mem _ hr'))
    refine ⟨⟨e, a, t, m⟩ :: evs, ?_, ?_⟩
    · simp only [buildParams, toRow, he', ha', ht', hm', hevs]
    · exact List.Forall₂.cons ⟨he', ha', ht', hm'⟩ hpres

lemma buildParams_error {rows : List RawRecord}
    (hmal : ∃ r ∈ rows, ¬ r.wellFormed) :
    ∃ msg, buildParams rows = .error msg := by
  induction rows with
  | nil => simp at hmal
  | cons r rs ih =>
    by_cases hr : r.wellFormed
    · have hrs : ∃ r' ∈ rs, ¬ r'.wellFormed := by
        rcases hmal with ⟨r', hr', hmal'⟩
        rcases List.mem_cons.mp hr' with heq | hmem
        · exact absurd hr (heq ▸ hmal')
        · exact ⟨r', hmem, hmal'⟩
      obtain ⟨he, ha, ht, hm⟩ := hr
      obtain ⟨e, he'⟩ := Option.isSome_iff_exists.mp he
      obtain ⟨a, ha'⟩ := Option.isSome_iff_exists.mp ha
      obtain ⟨t, ht'⟩ := Option.isSome_iff_exists.mp ht
      obtain ⟨m, hm'⟩ := Option.isSome_iff_exists.mp hm
      obtain ⟨msg, hmsg⟩ := ih hrs
      refine ⟨msg, ?_⟩
      simp only [buildParams, toRow, he', ha', ht', hm', hmsg]
    · refine ⟨"KeyError", ?_⟩
      rcases r with ⟨re, ra, rt, rm⟩
      simp only [RawRecord.wellFormed, not_and_or,
        Option.not_isSome_iff_eq_none] at hr
      cases re <;> cases ra <;> cases rt <;> cases rm <;>
        simp_all [buildParams, toRow]

/-! ## C1 — atomic publish -/

/-- C1 counterexample: from a filesystem holding a published old dataset
and a fully staged new dataset, the publish phase of `import_data.main`
passes through an observable state in which the file at the store
location is absent — neither the old nor the new dataset.  (The `unlink`
loop at lines 63–67 iterates over suffix `""` as well, deleting the main
store file before `os.replace` re-creates it.) -/
theorem publish_absent_window :
    ∃ fs ∈ publishStates
        ⟨some [⟨"2020-01-01 10:00", "A", "t", 1000⟩], true, true,
         some [⟨"2020-02-02 11:00", "B", "u", 2000⟩]⟩,
      fs.store ≠ some [⟨"2020-01-01 10:00", "A", "t", 1000⟩] ∧
      fs.store ≠ some [⟨"2020-02-02 11:00", "B", "u", 2000⟩] := by
  refine ⟨unlinkStore
      ⟨some [⟨"2020-01-01 10:00", "A", "t", 1000⟩], true, true,
       some [⟨"2020-02-02 11:00", "B", "u", 2000⟩]⟩,
    ?_, by simp [unlinkStore], by simp [unlinkStore]⟩
  simp [publishStates]

/-- C1 amended: at every observable moment of the publish phase the store
location holds the prior complete dataset, is absent, or holds the new
complete dataset — never a partial mix — and the phase ends with the
staged dataset published by the single atomic `os.replace` rename. -/
theorem publish_never_partial (old new : List PlayEvent) (fs0 : FS)
    (h0 : fs0.store = some old) (h1 : fs0.tmp = some new) :
    (∀ fs ∈ publishStates fs0,
        fs.store = some old ∨ fs.store = none ∨ fs.store = some new) ∧
    (publishStates fs0).getLast? =
      some ⟨some new, false, false, none⟩ := by
  constructor
  · intro fs hfs
    simp only [publishStates, List.mem_cons, List.mem_singleton] at hfs
    rcases hfs with rfl | rfl | rfl | rfl | rfl | h
    · exact Or.inl h0
    · exact Or.inr (Or.inl rfl)
    · exact Or.inr (Or.inl rfl)
    · exact Or.inr (Or.inl rfl)
    · exact Or.inr (Or.inr (by simp [osReplace, unlinkShm, unlinkWal, unlinkStore, h1]))
    · simp at h
  · simp [publishStates, osReplace, unlinkShm, unlinkWal, unlinkStore, h1]

/-- C1 witness: the amended theorem applied to a concrete filesystem. -/
theorem publish_never_partial_witness :
    (∀ fs ∈ publishStates
        ⟨some [⟨"2020-01-01 10:00", "A", "t", 1000⟩], true, true,
         some [⟨"2020-02-02 11:00", "B", "u", 2000⟩]⟩,
      fs.store = some [⟨"2020-01-01 10:00", "A", "t", 1000⟩] ∨ fs.store = none ∨
      fs.store = some [⟨"2020-02-02 11:00", "B", "u", 2000⟩]) ∧
    (publishStates
        ⟨some [⟨"2020-01-01 10:00", "A", "t", 1000⟩], true, true,
         some [⟨"2020-02-02 11:00", "B", "u", 2000⟩]⟩).getLast? =
      some ⟨some [⟨"2020-02-02 11:00", "B", "u", 2000⟩], false, false, none⟩ :=
  publish_never_partial _ _ _ rfl rfl

/-! ## C2, C3, C9 — importer semantics -/

/-- C2: on every import run, staging resources are cleaned up whether the
run succeeds or raises, and whenever the run raises — empty input,
malformed record during parameter building, or a failure of the staging
insert/commit — the previously published store is left untouched
(all-or-nothing). -/
theorem import_failure_atomic (store0 : Option (List PlayEvent))
    (rows : List RawRecord) (commitFails : Bool) :
    (runImport store0 rows commitFails).tmpRemoved = true ∧
    (∀ msg, (runImport store0 rows commitFails).result = Except.error msg →
      (runImport store0 rows commitFails).published = store0) := by
  by_cases hemp : rows.isEmpty
  · simp [runImport, hemp]
  · cases hbp : buildParams rows with
    | error e => simp [runImport, hemp, hbp]
    | ok params =>
      by_cases hc : commitFails
      · simp [runImport, hemp, hbp, hc]
      · simp [runImport, hemp, hbp, hc]

/-- C2 witness: a run that raises `KeyError` while staging leaves the
published store byte-for-byte as it was, and the staging directory is
removed. -/
theorem import_failure_atomic_witness :
    (runImport (some [⟨"2020-01-01 10:00", "A", "t", 1000⟩])
        [⟨none, some "B", some "u", some 5⟩] false).tmpRemoved = true ∧
    (runImport (some [⟨"2020-01-01 10:00", "A", "t", 1000⟩])
        [⟨none, some "B", some "u", some 5⟩] false).published =
      some [⟨"2020-01-01 10:00", "A", "t", 1000⟩] :=
  ⟨(import_failure_atomic _ _ _).1,
   (import_failure_atomic _ _ _).2 "KeyError" rfl⟩

/-- C3: importing a non-empty batch of well-formed records (all four
fields present, `ms_played` a non-negative integer) succeeds, publishes a
store with exactly one `PlayEvent` per input record carrying the exact
input field values (no truncation or rounding), and reports the input
record count. -/
theorem import_roundtrip (store0 : Option (List PlayEvent))
    (rows : List RawRecord) (hne : rows ≠ [])
    (hwf : ∀ r ∈ rows, r.wellFormed)
    (hms : ∀ r ∈ rows, ∀ m, r.msPlayed = some m → 0 ≤ m) :
    ∃ evs, (runImport store0 rows false).published = some evs ∧
      evs.length = rows.length ∧
      List.Forall₂ FieldsPreserved rows evs ∧
      (runImport store0 rows false).result = Except.ok rows.length := by
  obtain ⟨evs, hbp, hpres⟩ := buildParams_ok hwf
  have hempty : rows.isEmpty = false := by
    cases rows with
    | nil => exact absurd rfl hne
    | cons r rs => rfl
  refine ⟨evs, ?_, hpres.length_eq.symm, hpres, ?_⟩ <;>
    simp [runImport, hempty, hbp]

/-- C3 witness: a concrete two-record import round-trips both records
exactly and reports count 2. -/
theorem import_roundtrip_witness :
    ∃ evs, (runImport none
        [⟨some "2020-01-01 10:00", some "A", some "t", some 10000⟩,
         ⟨some "2020-01-02 11:00", some "B", some "u", some 20000⟩]
        false).published = some evs ∧
      evs.length = ([⟨some "2020-01-01 10:00", some "A", some "t", some 10000⟩,
         ⟨some "2020-01-02 11:00", some "B", some "u", some 20000⟩] :
           List RawRecord).length ∧
      List.Forall₂ FieldsPreserved
        [⟨some "2020-01-01 10:00", some "A", some "t", some 10000⟩,
         ⟨some "2020-01-02 11:00", some "B", some "u", some 20000⟩] evs ∧
      (runImport none
        [⟨some "2020-01-01 10:00", some "A", some "t", some 10000⟩,
         ⟨some "2020-01-02 11:00", some "B", some "u", some 20000⟩]
        false).result = Except.ok ([⟨some "2020-01-01 10:00", some "A", some "t", some 10000⟩,
         ⟨some "2020-01-02 11:00", some "B", some "u", some 20000⟩] :
           List RawRecord).length :=
  import_roundtrip none _ (by simp) (by decide)
    (by intro r hr m hm; fin_cases hr <;> simp_all <;> omega)

/-- C9: the implemented malformed-record policy is reject-whole-batch —
if any record of the batch is missing a required field, the run raises
before a single record is inserted into the staging store, and the
published store is unchanged. -/
theorem import_rejects_malformed (store0 : Option (List PlayEvent))
    (rows : List RawRecord) (commitFails : Bool)
    (hmal : ∃ r ∈ rows, ¬ r.wellFormed) :
    (∃ msg, (runImport store0 rows commitFails).result = Except.error msg) ∧
    (runImport store0 rows commitFails).insertedBeforeError = 0 ∧
    (runImport store0 rows commitFails).published = store0 := by
  have hne : rows ≠ [] := by rintro rfl; simp at hmal
  have hempty : rows.isEmpty = false := by
    cases rows with
    | nil => exact absurd rfl hne
    | cons r rs => rfl
  obtain ⟨msg, hmsg⟩ := buildParams_error hmal
  exact ⟨⟨msg, by simp [runImport, hempty, hmsg]⟩,
    by simp [runImport, hempty, hmsg],
    by simp [runImport, hempty, hmsg]⟩

/-- C9 witness: one malformed record among well-formed ones aborts the
whole batch with zero staged inserts and no change to the store. -/
theorem import_rejects_malformed_witness :
    (∃ msg, (runImport (some [⟨"2019-12-31 09:00", "C", "v", 1⟩])
        [⟨some "2020-01-01 10:00", some "A", some "t", some 10000⟩,
         ⟨some "2020-01-02 11:00", none, some "u", some 20000⟩]
        false).result = Except.error msg) ∧
    (runImport (some [⟨"2019-12-31 09:00", "C", "v", 1⟩])
        [⟨some "2020-01-01 10:00", some "A", some "t", some 10000⟩,
         ⟨some "2020-01-02 11:00", none, some "u", some 20000⟩]
        false).insertedBeforeError = 0 ∧
    (runImport (some [⟨"2019-12-31 09:00", "C", "v", 1⟩])
        [⟨some "2020-01-01 10:00", some "A", some "t", some 10000⟩,
         ⟨some "2020-01-02 11:00", none, some "u", some 20000⟩]
        false).published = some [⟨"2019-12-31 09:00", "C", "v", 1⟩] :=
  import_rejects_malformed _ _ _ (by decide)

/-! ## C5 — empty-store defaults -/

/-- C5: on the empty store, `compute_hhi` returns the documented default
`0.0` and `repeat_metrics` returns the documented default `0` — but
`skip_metrics` does not: its SQL aggregates are `NULL` over zero rows, so
the percentages come back non-numeric (`float(None)` faults) instead of
the defined default `0.0`. -/
theorem empty_store_defaults :
    computeHhi [] = some 0 ∧
    repeatMetrics [] = (0, 0, 0) ∧
    skipMetrics [] = none := by
  refine ⟨by simp [computeHhi], by simp [repeatMetrics], by simp [skipMetrics]⟩

/-! ## C7 — skip proxy -/

/-- C7: the skip proxy counts plays with `ms_played` strictly below
30 000 and strictly below 60 000 as percentages of total plays: on the
five-record dataset `[10000, 20000, 40000, 70000, 90000]` it reports
`pct_lt_30s = 40.0` and `pct_lt_60s = 60.0`, and a play of exactly
30 000 ms is not counted as below 30 s (strict inequality). -/
theorem skip_proxy_spec :
    skipMetrics
      [⟨"2020-01-01 10:00", "A", "t1", 10000⟩,
       ⟨"2020-01-01 10:05", "A", "t2", 20000⟩,
       ⟨"2020-01-01 10:10", "B", "t3", 40000⟩,
       ⟨"2020-01-01 10:15", "B", "t4", 70000⟩,
       ⟨"2020-01-01 10:20", "C", "t5", 90000⟩] = some (40, 60) ∧
    skipMetrics [⟨"2020-01-01 10:00", "A", "t6", 30000⟩] = some (0, 100) := by
  constructor <;>
    · simp only [skipMetrics, round1, List.isEmpty_cons, Bool.false_eq_true,
        if_false, List.filter, List.length_cons, List.length_nil,
        Option.some.injEq, Prod.mk.injEq]
      norm_num

/-! ## C10 — loyalty threshold labelling on the two surfaces -/

/-- C10 counterexample: at HHI = 0.06 the report generator labels
"Explorer" (`hhi < 0.07`) while the dashboard labels "Balanced"
(`score ≥ 0.05`): the two surfaces do not implement the same labelling
function. -/
theorem label_mismatch :
    reportLabel (6/100) = "Explorer" ∧ appLabel (6/100) = "Balanced" ∧
    reportLabel (6/100) ≠ appLabel (6/100) := by
  have h1 : reportLabel (6/100) = "Explorer" := by
    unfold reportLabel
    rw [if_pos (by norm_num)]
  have h2 : appLabel (6/100) = "Balanced" := by
    unfold appLabel
    rw [if_neg (by norm_num), if_pos (by norm_num)]
  exact ⟨h1, h2, by rw [h1, h2]; decide⟩

/-- C10 amended: the two labellings agree on every score outside
`[0.05, 0.07)` — they share the 0.12 Balanced/Loyalist boundary — and on
`[0.05, 0.07)` the report generator says "Explorer" while the dashboard
says "Balanced". -/
theorem label_agreement (h : ℚ) :
    (h < 5/100 ∨ 7/100 ≤ h → reportLabel h = appLabel h) ∧
    (5/100 ≤ h → h < 7/100 →
      reportLabel h = "Explorer" ∧ appLabel h = "Balanced") := by
  constructor
  · intro hout
    unfold reportLabel appLabel
    rcases hout with hlt | hge
    · rw [if_pos (show h < 7/100 by linarith), if_pos (show h < 5/100 from hlt)]
    · rw [if_neg (show ¬ h < 7/100 by linarith),
          if_neg (show ¬ h < 5/100 by linarith)]
  · intro h5 h7
    constructor
    · unfold reportLabel
      rw [if_pos h7]
    · unfold appLabel
      rw [if_neg (by linarith), if_pos (by linarith)]

/-- C10 witness: agreement at 0.01, disagreement at 0.06. -/
theorem label_agreement_witness :
    ((1:ℚ)/100 < 5/100 ∨ (7:ℚ)/100 ≤ 1/100) ∧
    reportLabel (1/100) = appLabel (1/100) ∧
    (5:ℚ)/100 ≤ 6/100 ∧ (6:ℚ)/100 < 7/100 ∧
    reportLabel (6/100) = "Explorer" ∧ appLabel (6/100) = "Balanced" :=
  ⟨Or.inl (by norm_num), (label_agreement _).1 (Or.inl (by norm_num)),
   by norm_num, by norm_num,
   ((label_agreement _).2 (by norm_num) (by norm_num)).1,
   ((label_agreement _).2 (by norm_num) (by norm_num)).2⟩

/-! ## C8 — date-range filter -/

/-- C8 counterexample: with `start > end` the dashboard's
`BETWEEN`-filtered query silently returns the empty row set on a
non-empty store; no code path raises a validation error. -/
theorem reversed_range_silent_empty :
    strLeB "2020-01-06" "2020-01-04" = false ∧
    filterRange "2020-01-06" "2020-01-04"
      [⟨"2020-01-05 10:00", "A", "t", 1000⟩] = [] ∧
    ([⟨"2020-01-05 10:00", "A", "t", 1000⟩] : List PlayEvent) ≠ [] := by
  refine ⟨by decide, by decide, by simp⟩

/-- C8 amended: a filter with `start_date > end_date` silently yields the
empty result (no validation error exists in the code); for every filter
both endpoints are inclusive (`BETWEEN` keeps exactly the rows with
`start ≤ date(endTime) ≤ end`), and the default filter — the dataset's
full `[min, max]` date range — keeps every record. -/
theorem filter_range_semantics (s e : String) (l : List PlayEvent) :
    (strLeB s e = false → filterRange s e l = []) ∧
    (∀ ev, ev ∈ filterRange s e l ↔
      ev ∈ l ∧ strLeB s (dateOf ev.endTime) = true ∧
        strLeB (dateOf ev.endTime) e = true) ∧
    (∀ ds de, minStoreDate l = some ds → maxStoreDate l = some de →
      filterRange ds de l = l) := by
  refine ⟨?_, ?_, ?_⟩
  · intro hse
    rw [filterRange, List.filter_eq_nil_iff]
    intro ev _ hmatch
    rw [matchesRange, Bool.and_eq_true] at hmatch
    exact absurd (strLeB_trans hmatch.1 hmatch.2) (by simp [hse])
  · intro ev
    simp [filterRange, List.mem_filter, matchesRange, Bool.and_eq_true]
  · intro ds de hds hde
    rw [filterRange, List.filter_eq_self]
    intro ev hev
    rw [matchesRange, Bool.and_eq_true]
    exact ⟨minDate_le hds _ (List.mem_map_of_mem _ hev),
           maxDate_ge hde _ (List.mem_map_of_mem _ hev)⟩

/-- C8 witness: a reversed range silently drops a two-record store; the
default full range `["2020-01-05", "2020-01-07"]` keeps both records. -/
theorem filter_range_semantics_witness :
    filterRange "2020-01-06" "2020-01-04"
      [⟨"2020-01-05 10:00", "A", "t", 1000⟩,
       ⟨"2020-01-07 09:00", "B", "u", 2000⟩] = [] ∧
    filterRange "2020-01-05" "2020-01-07"
      [⟨"2020-01-05 10:00", "A", "t", 1000⟩,
       ⟨"2020-01-07 09:00", "B", "u", 2000⟩] =
      [⟨"2020-01-05 10:00", "A", "t", 1000⟩,
       ⟨"2020-01-07 09:00", "B", "u", 2000⟩] :=
  ⟨(filter_range_semantics "2020-01-06" "2020-01-04"
      [⟨"2020-01-05 10:00", "A", "t", 1000⟩,
       ⟨"2020-01-07 09:00", "B", "u", 2000⟩]).1 (by decide),
   (filter_range_semantics "2020-01-05" "2020-01-07"
      [⟨"2020-01-05 10:00", "A", "t", 1000⟩,
       ⟨"2020-01-07 09:00", "B", "u", 2000⟩]).2.2 "2020-01-05" "2020-01-07"
     (by decide) (by decide)⟩

/-! ## C6 — discovery curve -/

lemma cumSums_le (acc : ℕ) (xs : List (String × ℕ)) :
    ∀ t ∈ cumSums acc xs, acc ≤ t.2.2 := by
  induction xs generalizing acc with
  | nil => intro t ht; simp [cumSums] at ht
  | cons p rest ih =>
    obtain ⟨d, n⟩ := p
    intro t ht
    simp only [cumSums, List.mem_cons] at ht
    rcases ht with rfl | ht
    · exact Nat.le_add_right _ _
    · exact le_trans (Nat.le_add_right _ _) (ih (acc + n) t ht)

lemma cumSums_pairwise (acc : ℕ) (xs : List (String × ℕ)) :
    List.Pairwise (fun t u => t.2.2 ≤ u.2.2) (cumSums acc xs) := by
  induction xs generalizing acc with
  | nil => exact List.Pairwise.nil
  | cons p rest ih =>
    obtain ⟨d, n⟩ := p
    exact List.Pairwise.cons (fun u hu => cumSums_le (acc + n) rest u hu)
      (ih (acc + n))

lemma cumSums_getLast? (acc : ℕ) (xs : List (String × ℕ)) (hne : xs ≠ []) :
    ((cumSums acc xs).getLast?).map (fun t => t.2.2)
      = some (acc + (xs.map (fun p => p.2)).sum) := by
  induction xs generalizing acc with
  | nil => exact absurd rfl hne
  | cons p rest ih =>
    obtain ⟨d, n⟩ := p
    cases rest with
    | nil => simp [cumSums]
    | cons q rest' =>
      have hstep := ih (acc + n) (by simp)
      obtain ⟨d', n'⟩ := q
      simp only [cumSums] at hstep ⊢
      rw [List.getLast?_cons_cons]
      rw [hstep]
      simp only [List.map_cons, List.sum_cons, Option.some.injEq]
      omega

lemma calendar_nodup (l : List PlayEvent) : (calendar l).Nodup :=
  ((List.perm_insertionSort dateLe _).nodup_iff).mpr
    (List.nodup_dedup _)

lemma mem_calendar {l : List PlayEvent} {d : String} :
    d ∈ calendar l ↔ d ∈ (l.map (fun e => dateOf e.endTime)).dedup :=
  (List.perm_insertionSort dateLe _).mem_iff

lemma calendar_ne_nil {l : List PlayEvent} (hne : l ≠ []) :
    calendar l ≠ [] := by
  cases l with
  | nil => exact absurd rfl hne
  | cons e es =>
    intro hcal
    have : dateOf e.endTime ∈ calendar (e :: es) := by
      rw [mem_calendar, List.mem_dedup]
      exact List.mem_map_of_mem _ (List.mem_cons_self _ _)
    rw [hcal] at this
    exact List.not_mem_nil _ this

lemma firstDate_mem_calendar (l : List PlayEvent) (a : String)
    (ha : a ∈ artistsOf l) : ∃ d ∈ calendar l, firstDate l a = some d := by
  rw [artistsOf, List.mem_dedup] at ha
  obtain ⟨e, he, hea⟩ := List.mem_map.mp ha
  have hefil : e ∈ l.filter (fun e' => e'.artistName == a) :=
    List.mem_filter.mpr ⟨he, beq_iff_eq.mpr hea⟩
  have hne : (l.filter (fun e' => e'.artistName == a)).map
      (fun e' => dateOf e'.endTime) ≠ [] := by
    intro hcontra
    rw [List.map_eq_nil_iff] at hcontra
    rw [hcontra] at hefil
    exact List.not_mem_nil _ hefil
  obtain ⟨m, hm⟩ := minDate_isSome_of_ne_nil hne
  refine ⟨m, ?_, hm⟩
  have hmem := minDate_mem hm
  obtain ⟨e', he', hde'⟩ := List.mem_map.mp hmem
  rw [mem_calendar, List.mem_dedup]
  exact hde' ▸ List.mem_map_of_mem _ (List.mem_filter.mp he').1

lemma sum_newArtists (l : List PlayEvent) :
    ((calendar l).map (fun d => newArtists l d)).sum = (artistsOf l).length := by
  have hA : ((calendar l).map some).Nodup :=
    (calendar_nodup l).map (Option.some_injective _)
  have hcov : ∀ a ∈ artistsOf l, firstDate l a ∈ (calendar l).map some := by
    intro a ha
    obtain ⟨d, hd, hfd⟩ := firstDate_mem_calendar l a ha
    exact List.mem_map.mpr ⟨d, hd, hfd.symm⟩
  have hfib := sum_fiber ((calendar l).map some) hA (artistsOf l)
    (firstDate l) (fun _ => (1 : ℕ)) hcov
  rw [List.map_map, sum_map_ones] at hfib
  have hinner : ∀ d ∈ calendar l,
      ((fun b => (((artistsOf l).filter (fun a => firstDate l a == b)).map
          (fun _ => (1 : ℕ))).sum) ∘ some) d = newArtists l d := by
    intro d _
    simp only [Function.comp_apply]
    rw [sum_map_ones]
    rfl
  rw [List.map_congr_left hinner] at hfib
  exact hfib

/-- C6: the cumulative discovery curve is monotonically non-decreasing
over the ordered calendar dates, and (on a non-empty dataset) its value
at the final date equals the total number of distinct artists. -/
theorem discovery_monotone_final (l : List PlayEvent) :
    List.Pairwise (fun t u => t.2.2 ≤ u.2.2) (discoveryCurve l) ∧
    (l ≠ [] →
      ((discoveryCurve l).getLast?).map (fun t => t.2.2)
        = some (artistsOf l).length) := by
  constructor
  · exact cumSums_pairwise 0 _
  · intro hne
    have hxs : (calendar l).map (fun d => (d, newArtists l d)) ≠ [] := by
      rw [ne_eq, List.map_eq_nil_iff]
      exact calendar_ne_nil hne
    rw [discoveryCurve, cumSums_getLast? 0 _ hxs, List.map_map]
    have : ((fun p : String × ℕ => p.2) ∘ fun d => (d, newArtists l d))
        = fun d => newArtists l d := rfl
    rw [this, sum_newArtists, Nat.zero_add]

/-- C6 witness: a three-record, two-artist, three-date dataset has a
non-decreasing curve ending at 2 distinct artists. -/
theorem discovery_monotone_final_witness :
    List.Pairwise (fun t u => t.2.2 ≤ u.2.2)
      (discoveryCurve
        [⟨"2020-01-02 10:00", "A", "t", 100⟩,
         ⟨"2020-01-01 09:00", "B", "u", 200⟩,
         ⟨"2020-01-03 11:00", "A", "v", 300⟩]) ∧
    ((discoveryCurve
        [⟨"2020-01-02 10:00", "A", "t", 100⟩,
         ⟨"2020-01-01 09:00", "B", "u", 200⟩,
         ⟨"2020-01-03 11:00", "A", "v", 300⟩]).getLast?).map
      (fun t => t.2.2) = some 2 := by
  refine ⟨(discovery_monotone_final _).1, ?_⟩
  rw [(discovery_monotone_final
        [⟨"2020-01-02 10:00", "A", "t", 100⟩,
         ⟨"2020-01-01 09:00", "B", "u", 200⟩,
         ⟨"2020-01-03 11:00", "A", "v", 300⟩]).2 (by simp)]
  decide

/-! ## C4 — HHI bounds: rational-list lemmas -/

lemma sum_sq_le_sq_sum (xs : List ℚ) (h : ∀ x ∈ xs, 0 ≤ x) :
    (xs.map (fun x => x ^ 2)).sum ≤ xs.sum ^ 2 := by
  induction xs with
  | nil => simp
  | cons x xs ih =>
    have hx : 0 ≤ x := h x (List.mem_cons_self _ _)
    have hxs : ∀ y ∈ xs, 0 ≤ y := fun y hy => h y (List.mem_cons_of_mem _ hy)
    have hS : 0 ≤ xs.sum := List.sum_nonneg hxs
    have hQ := ih hxs
    simp only [List.map_cons, List.sum_cons]
    nlinarith [mul_nonneg hx hS]

lemma exists_pos_of_sum_pos (xs : List ℚ) (h : 0 < xs.sum) :
    ∃ x ∈ xs, 0 < x := by
  induction xs with
  | nil => simp at h
  | cons x xs ih =>
    by_cases hx : 0 < x
    · exact ⟨x, List.mem_cons_self _ _, hx⟩
    · have : 0 < xs.sum := by
        simp only [List.sum_cons] at h
        push_neg at hx
        linarith
      obtain ⟨y, hy, hy0⟩ := ih this
      exact ⟨y, List.mem_cons_of_mem _ hy, hy0⟩

lemma sum_sq_pos (xs : List ℚ)
    (hx : ∃ x ∈ xs, 0 < x) : 0 < (xs.map (fun x => x ^ 2)).sum := by
  obtain ⟨x, hxm, hx0⟩ := hx
  have hsq : x ^ 2 ∈ xs.map (fun x => x ^ 2) := List.mem_map_of_mem _ hxm
  have hub : x ^ 2 ≤ (xs.map (fun x => x ^ 2)).sum :=
    List.single_le_sum (by
      intro y hy
      obtain ⟨z, _, rfl⟩ := List.mem_map.mp hy
      positivity) _ hsq
  have : 0 < x ^ 2 := pow_pos hx0 2
  linarith

lemma all_zero_of_sum_zero (xs : List ℚ) (hnn : ∀ x ∈ xs, 0 ≤ x)
    (h : xs.sum = 0) : ∀ x ∈ xs, x = 0 := by
  intro x hx
  have hub : x ≤ xs.sum := List.single_le_sum hnn x hx
  have := hnn x hx
  linarith [hub, h ▸ hub]

lemma tie_exists_one (xs : List ℚ) (hnn : ∀ x ∈ xs, 0 ≤ x)
    (hsum : xs.sum = 1) (hsq : (xs.map (fun x => x ^ 2)).sum = 1) :
    ∃ x ∈ xs, x = 1 := by
  induction xs with
  | nil => simp at hsum
  | cons x ys ih =>
    have hx : 0 ≤ x := hnn x (List.mem_cons_self _ _)
    have hys : ∀ y ∈ ys, 0 ≤ y := fun y hy => hnn y (List.mem_cons_of_mem _ hy)
    have hS : 0 ≤ ys.sum := List.sum_nonneg hys
    simp only [List.sum_cons] at hsum
    simp only [List.map_cons, List.sum_cons] at hsq
    have hQle := sum_sq_le_sq_sum ys hys
    have hxS : x * ys.sum = 0 := by nlinarith
    rcases mul_eq_zero.mp hxS with hx0 | hS0
    · obtain ⟨y, hy, hy1⟩ := ih hys (by linarith) (by nlinarith)
      exact ⟨y, List.mem_cons_of_mem _ hy, hy1⟩
    · exact ⟨x, List.mem_cons_self _ _, by linarith⟩

lemma sum_map_div (xs : List ℚ) (c : ℚ) :
    (xs.map (fun x => x / c)).sum = xs.sum / c := by
  induction xs with
  | nil => simp
  | cons x xs ih => simp [ih, add_div]

lemma cast_list_sum_int (xs : List ℤ) :
    ((xs.sum : ℤ) : ℚ) = (xs.map (fun n : ℤ => (n : ℚ))).sum := by
  induction xs with
  | nil => simp
  | cons x xs ih => simp [ih]

lemma artistMs_cast (l : List PlayEvent) (a : String) :
    ((artistMs l a : ℤ) : ℚ)
      = ((l.filter (fun e => e.artistName == a)).map
          (fun e => (e.msPlayed : ℚ))).sum := by
  rw [artistMs, cast_list_sum_int, List.map_map]
  rfl

lemma totalMs_cast (l : List PlayEvent) :
    ((totalMs l : ℤ) : ℚ) = (l.map (fun e => (e.msPlayed : ℚ))).sum := by
  rw [totalMs, cast_list_sum_int, List.map_map]
  rfl

/-- `GROUP BY artistName` partitions the total: the per-artist sums add
up to `SUM(msPlayed)` over the whole table. -/
lemma artistMs_partition (l : List PlayEvent) :
    ((artistsOf l).map (fun a => ((artistMs l a : ℤ) : ℚ))).sum
      = ((totalMs l : ℤ) : ℚ) := by
  have hA : (artistsOf l).Nodup := List.nodup_dedup _
  have hcov : ∀ e ∈ l, e.artistName ∈ artistsOf l := fun e he =>
    List.mem_dedup.mpr (List.mem_map_of_mem _ he)
  have hfib := sum_fiber (artistsOf l) hA l (fun e => e.artistName)
    (fun e => (e.msPlayed : ℚ)) hcov
  rw [totalMs_cast]
  rw [List.map_congr_left (fun a _ => artistMs_cast l a)]
  exact hfib

lemma artistMs_nonneg (l : List PlayEvent)
    (hms : ∀ ev ∈ l, 0 ≤ ev.msPlayed) (a : String) : 0 ≤ artistMs l a := by
  apply List.sum_nonneg
  intro x hx
  obtain ⟨e, he, rfl⟩ := List.mem_map.mp hx
  exact hms e (List.mem_filter.mp he).1

lemma artistMs_eq_zero_of_not_mem (l : List PlayEvent) (a : String)
    (ha : a ∉ artistsOf l) : artistMs l a = 0 := by
  rw [artistMs]
  have : l.filter (fun e => e.artistName == a) = [] := by
    rw [List.filter_eq_nil_iff]
    intro e he hcontra
    exact ha (List.mem_dedup.mpr
      (List.mem_map.mpr ⟨e, he, beq_iff_eq.mp hcontra⟩))
  rw [this]
  rfl

lemma artistsOf_ne_nil {l : List PlayEvent} (hne : l ≠ []) :
    artistsOf l ≠ [] := by
  cases l with
  | nil => exact absurd rfl hne
  | cons e es =>
    intro hcontra
    have : e.artistName ∈ artistsOf (e :: es) :=
      List.mem_dedup.mpr (List.mem_map_of_mem _ (List.mem_cons_self _ _))
    rw [hcontra] at this
    exact List.not_mem_nil _ this

/-- C4 counterexample: a non-empty dataset (one record, `ms_played = 0`,
satisfying the `ms_played ≥ 0` invariant) has total listening time 0; its
`0/0` share is `NaN`, which `shares.sum()` skips (`skipna=True`), so
`compute_hhi` returns `0.0` — a value outside `(0, 1]`, violating the
claimed strict lower bound `0 < HHI`. -/
theorem hhi_zero_total_returns_zero :
    ([⟨"2020-01-01 10:00", "A", "t", 0⟩] : List PlayEvent) ≠ [] ∧
    (∀ ev ∈ ([⟨"2020-01-01 10:00", "A", "t", 0⟩] : List PlayEvent),
      0 ≤ ev.msPlayed) ∧
    computeHhi [⟨"2020-01-01 10:00", "A", "t", 0⟩] = some 0 ∧
    ¬ (0 : ℚ) < 0 := by
  refine ⟨by simp, by decide, ?_, by norm_num⟩
  simp [computeHhi, totalMs, artistsOf, artistMs]

/-- C4 amended: for every dataset with positive total listening time
(and the `ms_played ≥ 0` invariant), the HHI satisfies `0 < HHI ≤ 1`; it
equals 1 iff some artist holds the entire listening time; and if all
artists hold equal listening time it equals `1 / (number of artists)`.
(For a non-empty dataset with zero total time the code returns `0.0`
instead, outside `(0, 1]` — see the counterexample.) -/
theorem hhi_bounds (l : List PlayEvent) (hpos : 0 < totalMs l)
    (hms : ∀ ev ∈ l, 0 ≤ ev.msPlayed) :
    ∃ q, computeHhi l = some q ∧ 0 < q ∧ q ≤ 1 ∧
      (q = 1 ↔ ∃ a, artistMs l a = totalMs l) ∧
      (∀ m, (∀ a ∈ artistsOf l, artistMs l a = m) →
        q = 1 / ((artistsOf l).length : ℚ)) := by
  have hne : l ≠ [] := by
    rintro rfl
    simp [totalMs] at hpos
  have hempty : l.isEmpty = false := by
    cases l with
    | nil => exact absurd rfl hne
    | cons e es => rfl
  have hT0 : ¬ totalMs l = 0 := by omega
  have hTpos : 0 < ((totalMs l : ℤ) : ℚ) := by exact_mod_cast hpos
  have hTne : ((totalMs l : ℤ) : ℚ) ≠ 0 := ne_of_gt hTpos
  refine ⟨((artistsOf l).map
      (fun a => ((artistMs l a : ℚ) / (totalMs l : ℚ)) ^ 2)).sum, ?_, ?_, ?_, ?_, ?_⟩
  · simp [computeHhi, hempty, hT0]
  · -- 0 < HHI: some artist has positive time, so some share is positive
    have hsumpos : 0 < ((artistsOf l).map
        (fun a => ((artistMs l a : ℤ) : ℚ))).sum := by
      rw [artistMs_partition]; exact hTpos
    obtain ⟨y, hy, hy0⟩ := exists_pos_of_sum_pos _ hsumpos
    obtain ⟨a, haA, rfl⟩ := List.mem_map.mp hy
    have hx : ∃ x ∈ (artistsOf l).map
        (fun a => (artistMs l a : ℚ) / (totalMs l : ℚ)), 0 < x :=
      ⟨_, List.mem_map_of_mem _ haA, div_pos hy0 hTpos⟩
    have := sum_sq_pos _ hx
    rwa [List.map_map] at this
  · -- HHI ≤ 1: sum of squares of non-negative shares summing to 1
    have hnn : ∀ x ∈ (artistsOf l).map
        (fun a => (artistMs l a : ℚ) / (totalMs l : ℚ)), 0 ≤ x := by
      intro x hx
      obtain ⟨a, _, rfl⟩ := List.mem_map.mp hx
      exact div_nonneg (by exact_mod_cast artistMs_nonneg l hms a) (le_of_lt hTpos)
    have hsum1 : ((artistsOf l).map
        (fun a => (artistMs l a : ℚ) / (totalMs l : ℚ))).sum = 1 := by
      have hm : ((artistsOf l).map
          (fun a => ((artistMs l a : ℤ) : ℚ))).map
            (fun x => x / ((totalMs l : ℤ) : ℚ))
          = (artistsOf l).map
              (fun a => (artistMs l a : ℚ) / (totalMs l : ℚ)) := by
        rw [List.map_map]
        rfl
      rw [← hm, sum_map_div, artistMs_partition]
      exact div_self hTne
    have hle := sum_sq_le_sq_sum _ hnn
    rw [hsum1, one_pow, List.map_map] at hle
    exact hle
  · -- HHI = 1 ↔ one artist holds all the time
    have hnn : ∀ x ∈ (artistsOf l).map
        (fun a => (artistMs l a : ℚ) / (totalMs l : ℚ)), 0 ≤ x := by
      intro x hx
      obtain ⟨a, _, rfl⟩ := List.mem_map.mp hx
      exact div_nonneg (by exact_mod_cast artistMs_nonneg l hms a) (le_of_lt hTpos)
    have hsum1 : ((artistsOf l).map
        (fun a => (artistMs l a : ℚ) / (totalMs l : ℚ))).sum = 1 := by
      have hm : ((artistsOf l).map
          (fun a => ((artistMs l a : ℤ) : ℚ))).map
            (fun x => x / ((totalMs l : ℤ) : ℚ))
          = (artistsOf l).map
              (fun a => (artistMs l a : ℚ) / (totalMs l : ℚ)) := by
        rw [List.map_map]
        rfl
      rw [← hm, sum_map_div, artistMs_partition]
      exact div_self hTne
    constructor
    · intro hq1
      have hsq1 : (((artistsOf l).map
          (fun a => (artistMs l a : ℚ) / (totalMs l : ℚ))).map
            (fun x => x ^ 2)).sum = 1 := by
        rw [List.map_map]
        exact hq1
      obtain ⟨x, hx, hx1⟩ := tie_exists_one _ hnn hsum1 hsq1
      obtain ⟨a, haA, rfl⟩ := List.mem_map.mp hx
      have : (artistMs l a : ℚ) = ((totalMs l : ℤ) : ℚ) :=
        (div_eq_one_iff_eq hTne).mp hx1
      exact ⟨a, by exact_mod_cast this⟩
    · rintro ⟨a, ha⟩
      have haA : a ∈ artistsOf l := by
        by_contra hnotin
        rw [artistMs_eq_zero_of_not_mem l a hnotin] at ha
        omega
      have hperm := List.perm_cons_erase haA
      have hcasta : ((artistMs l a : ℤ) : ℚ) = ((totalMs l : ℤ) : ℚ) := by
        exact_mod_cast congrArg (fun n : ℤ => (n : ℚ)) ha
      -- the rest of the artists hold zero time
      have hsum' := (hperm.map (fun b => ((artistMs l b : ℤ) : ℚ))).sum_eq
      rw [artistMs_partition, List.map_cons, List.sum_cons, hcasta] at hsum'
      have hrest : (((artistsOf l).erase a).map
          (fun b => ((artistMs l b : ℤ) : ℚ))).sum = 0 := by linarith
      have hzero : ∀ x ∈ ((artistsOf l).erase a).map
          (fun b => ((artistMs l b : ℤ) : ℚ)), x = 0 := by
        apply all_zero_of_sum_zero _ ?_ hrest
        intro x hx
        obtain ⟨b, _, rfl⟩ := List.mem_map.mp hx
        exact_mod_cast artistMs_nonneg l hms b
      -- recompute the sum of squares along the permutation
      have hpermsq := (hperm.map
        (fun b => ((artistMs l b : ℚ) / (totalMs l : ℚ)) ^ 2)).sum_eq
      rw [List.map_cons, List.sum_cons] at hpermsq
      have hzsq : (((artistsOf l).erase a).map
          (fun b => ((artistMs l b : ℚ) / (totalMs l : ℚ)) ^ 2)).sum = 0 := by
        apply List.sum_eq_zero
        intro x hx
        obtain ⟨b, hb, rfl⟩ := List.mem_map.mp hx
        have hb0 : ((artistMs l b : ℤ) : ℚ) = 0 :=
          hzero _ (List.mem_map_of_mem _ hb)
        rw [hb0]
        simp
      rw [hpermsq, hzsq, hcasta, div_self hTne]
      norm_num
  · -- equal shares: HHI = 1/k
    intro m hall
    have hconst : (artistsOf l).map (fun b => ((artistMs l b : ℤ) : ℚ))
        = List.replicate (artistsOf l).length ((m : ℤ) : ℚ) := by
      rw [List.eq_replicate_iff]
      refine ⟨List.length_map _ _, ?_⟩
      intro x hx
      obtain ⟨b, hb, rfl⟩ := List.mem_map.mp hx
      rw [hall b hb]
    have hTk : ((totalMs l : ℤ) : ℚ)
        = ((artistsOf l).length : ℚ) * ((m : ℤ) : ℚ) := by
      rw [← artistMs_partition, hconst, List.sum_replicate, nsmul_eq_mul]
    have hk0 : ((artistsOf l).length : ℚ) ≠ 0 := by
      have hAne := artistsOf_ne_nil hne
      have : (artistsOf l).length ≠ 0 := by
        intro h0
        exact hAne (List.length_eq_zero.mp h0)
      exact_mod_cast this
    have hm0 : ((m : ℤ) : ℚ) ≠ 0 := by
      intro h0
      rw [h0, mul_zero] at hTk
      exact hTne hTk
    have hq : ((artistsOf l).map
        (fun a => ((artistMs l a : ℚ) / (totalMs l : ℚ)) ^ 2)).sum
        = ((artistsOf l).length : ℚ)
          * (((m : ℤ) : ℚ) / ((totalMs l : ℤ) : ℚ)) ^ 2 := by
      have hconst2 : (artistsOf l).map
          (fun a => ((artistMs l a : ℚ) / (totalMs l : ℚ)) ^ 2)
          = List.replicate (artistsOf l).length
              ((((m : ℤ) : ℚ) / ((totalMs l : ℤ) : ℚ)) ^ 2) := by
        rw [List.eq_replicate_iff]
        refine ⟨List.length_map _ _, ?_⟩
        intro x hx
        obtain ⟨b, hb, rfl⟩ := List.mem_map.mp hx
        rw [hall b hb]
      rw [hconst2, List.sum_replicate, nsmul_eq_mul]
    rw [hq, hTk]
    field_simp
    ring

/-- C4 witness: two artists with equal positive listening time give
HHI = 1/2 ∈ (0, 1], and HHI ≠ 1 matches the absence of a lone artist
holding all the time. -/
theorem hhi_bounds_witness :
    0 < totalMs [⟨"2020-01-01 10:00", "A", "t", 1000⟩,
                 ⟨"2020-01-02 11:00", "B", "u", 1000⟩] ∧
    ∃ q, computeHhi [⟨"2020-01-01 10:00", "A", "t", 1000⟩,
                     ⟨"2020-01-02 11:00", "B", "u", 1000⟩] = some q ∧
      0 < q ∧ q ≤ 1 ∧
      (q = 1 ↔ ∃ a, artistMs [⟨"2020-01-01 10:00", "A", "t", 1000⟩,
                              ⟨"2020-01-02 11:00", "B", "u", 1000⟩] a
        = totalMs [⟨"2020-01-01 10:00", "A", "t", 1000⟩,
                   ⟨"2020-01-02 11:00", "B", "u", 1000⟩]) ∧
      (∀ m, (∀ a ∈ artistsOf [⟨"2020-01-01 10:00", "A", "t", 1000⟩,
                              ⟨"2020-01-02 11:00", "B", "u", 1000⟩],
          artistMs [⟨"2020-01-01 10:00", "A", "t", 1000⟩,
                    ⟨"2020-01-02 11:00", "B", "u", 1000⟩] a = m) →
        q = 1 / ((artistsOf [⟨"2020-01-01 10:00", "A", "t", 1000⟩,
                             ⟨"2020-01-02 11:00", "B", "u", 1000⟩]).length : ℚ)) :=
  ⟨by decide, hhi_bounds _ (by decide) (by decide)⟩

end SpotifyInsights
